import Mathlib

/-!
Shallow embedding of the core NSF ingestion pipeline
(`src/lotus_notes_converter/parser.py`) of the lotus-notes-converter
repository: the LMBCS text decoder, file/database header readers, the
note-stream scanner with its item decoder, the note classifier and the
application-model builder.  Byte streams are `List Nat` (each entry a
byte value `< 256`); Python's wall clock (`datetime.now()`) is made
explicit as a `Nat` parameter threaded through the builder.
-/

set_option linter.unusedVariables false

namespace NSF

/-- Little-endian 16-bit read at `off` (`struct.unpack('<H', data[off:off+2])`).
Out-of-range indices read as 0; every call site guards the bound as the
Python code does. -/
def le16 (data : List Nat) (off : Nat) : Nat :=
  data.getD off 0 + 256 * data.getD (off + 1) 0

/-- Little-endian 32-bit read at `off` (`struct.unpack('<L', data[off:off+4])`). -/
def le32 (data : List Nat) (off : Nat) : Nat :=
  data.getD off 0 + 256 * data.getD (off + 1) 0
    + 65536 * data.getD (off + 2) 0 + 16777216 * data.getD (off + 3) 0

/-- Little-endian 16-bit encoding of a value `< 65536`. -/
def enc16 (v : Nat) : List Nat := [v % 256, v / 256]

/-- `bytes.split(b'\x00')[0]`: the bytes preceding the first NUL
(the whole list when no NUL occurs). -/
def takeUntilNul : List Nat → List Nat
  | [] => []
  | b :: rest => if b = 0 then [] else b :: takeUntilNul rest

/-- `128 ≤ b < 192`: a UTF-8 continuation byte. -/
def utf8Cont (b : Nat) : Bool := 128 ≤ b && b < 192

/-- Python's `bytes.decode('utf-8', errors='ignore')`: standard UTF-8
decoding where each invalid maximal subpart is skipped (contributing no
output), as CPython's `ignore` error handler does.  Guards exclude
overlong forms, surrogates and values above U+10FFFF, so every emitted
code is a valid scalar value. -/
def utf8DecodeIgnore : List Nat → List Char
  | [] => []
  | b :: rest =>
    if b < 128 then Char.ofNat b :: utf8DecodeIgnore rest
    else if b < 194 then utf8DecodeIgnore rest
    else if b < 224 then
      match rest with
      | [] => []
      | c1 :: rest2 =>
        if utf8Cont c1 then
          Char.ofNat ((b - 192) * 64 + (c1 - 128)) :: utf8DecodeIgnore rest2
        else utf8DecodeIgnore (c1 :: rest2)
    else if b < 240 then
      match rest with
      | [] => []
      | c1 :: rest2 =>
        if (if b = 224 then 160 else 128) ≤ c1 && c1 < (if b = 237 then 160 else 192) then
          match rest2 with
          | [] => []
          | c2 :: rest3 =>
            if utf8Cont c2 then
              Char.ofNat ((b - 224) * 4096 + (c1 - 128) * 64 + (c2 - 128))
                :: utf8DecodeIgnore rest3
            else utf8DecodeIgnore (c2 :: rest3)
        else utf8DecodeIgnore (c1 :: rest2)
    else if b < 245 then
      match rest with
      | [] => []
      | c1 :: rest2 =>
        if (if b = 240 then 144 else 128) ≤ c1 && c1 < (if b = 244 then 144 else 192) then
          match rest2 with
          | [] => []
          | c2 :: rest3 =>
            if utf8Cont c2 then
              match rest3 with
              | [] => []
              | c3 :: rest4 =>
                if utf8Cont c3 then
                  Char.ofNat ((b - 240) * 262144 + (c1 - 128) * 4096
                      + (c2 - 128) * 64 + (c3 - 128)) :: utf8DecodeIgnore rest4
                else utf8DecodeIgnore (c3 :: rest4)
            else utf8DecodeIgnore (c2 :: rest3)
        else utf8DecodeIgnore (c1 :: rest2)
    else utf8DecodeIgnore rest
termination_by l => l.length
decreasing_by all_goals first
  | (simp_all; omega)
  | simp_all

/-- `LMBCSDecoder.decode`, character list form: ASCII bytes map to their
characters, a NUL byte terminates, and the first byte ≥ 0x80 triggers a
single fallback `utf-8`/`ignore` decode of all remaining bytes
(including that byte), after which decoding stops. -/
def lmbcsDecodeList : List Nat → List Char
  | [] => []
  | b :: rest =>
    if b = 0 then []
    else if b < 128 then Char.ofNat b :: lmbcsDecodeList rest
    else utf8DecodeIgnore (b :: rest)

/-- `LMBCSDecoder.decode`. -/
def lmbcsDecode (data : List Nat) : String :=
  String.mk (lmbcsDecodeList data)

/-- The fields `NSFFileHeader.__init__` stores from a valid header. -/
structure NSFFileHeader where
  version : Nat
  info_buffer_size : Nat
  class_id : Nat
deriving DecidableEq

/-- `NSFFileHeader.__init__`: fails when fewer than 22 bytes are given or
the 2-byte signature differs from `b'\x1a\x00'`; otherwise reads the three
little-endian 16-bit fields at offsets 2, 4 and 6 (a pure parse, no other
state change). -/
def parseFileHeader (data : List Nat) : Except String NSFFileHeader :=
  if data.length < 22 then .error "Invalid NSF header size"
  else if data.take 2 ≠ [26, 0] then .error "Invalid NSF signature"
  else .ok ⟨le16 data 2, le16 data 4, le16 data 6⟩

/-- `NSFDatabaseHeader._parse_info_buffer`: when the info buffer holds
more than 128 bytes, the title is `info[64:128]` cut at the first NUL and
decoded `utf-8`/`ignore`; otherwise the title stays `""`. -/
def parse_info_buffer (info : List Nat) : String :=
  if 128 < info.length then
    String.mk (utf8DecodeIgnore (takeUntilNul ((info.drop 64).take 64)))
  else ""

/-- Python `dict` assignment `d[k] = v`: an existing key keeps its
position and gets the new value; a fresh key is appended. -/
def dictSet (d : List (String × List Nat)) (k : String) (v : List Nat) :
    List (String × List Nat) :=
  if d.any (fun p => p.1 = k) then
    d.map (fun p => if p.1 = k then (k, v) else p)
  else d ++ [(k, v)]

/-- Python `d.get(k)` / `k in d` lookup on the ordered mapping. -/
def lookupD (d : List (String × List Nat)) (k : String) : Option (List Nat) :=
  (d.find? (fun p => p.1 = k)).map (fun p => p.2)

/-- The value of the last pair carrying key `k`, if any. -/
def lastPick (k : String) : List (String × List Nat) → Option (List Nat)
  | [] => none
  | p :: rest =>
    match lastPick k rest with
    | some v => some v
    | none => if p.1 = k then some p.2 else none

/-- The key `f"item_{item_type}"` synthesized by `_parse_items`. -/
def itemKey (data : List Nat) (off : Nat) : String :=
  "item_" ++ toString (le16 data off)

/-- The stored value `self.data[offset+4 : offset+4+item_length]`
(Python slices truncate at the end of the buffer). -/
def itemVal (data : List Nat) (e : Nat × Nat) : List Nat :=
  (data.drop (e.1 + 4)).take e.2

/-- `NSFNote._parse_items`, the loop with its accumulated mapping: the
`while offset < len(data) - 4` guard, the `offset + 8 > len(data)` break,
the `item_length == 0 or offset + item_length > len(data)` break, and the
store of `data[offset+4 : offset+4+item_length]` under `item_<type>`. -/
def parseItemsGo (data : List Nat) (offset : Nat)
    (items : List (String × List Nat)) : List (String × List Nat) :=
  if offset + 4 < data.length then
    if data.length < offset + 8 then items
    else if le16 data (offset + 2) = 0
        ∨ data.length < offset + le16 data (offset + 2) then items
    else
      parseItemsGo data (offset + 4 + le16 data (offset + 2))
        (dictSet items (itemKey data offset)
          (itemVal data (offset, le16 data (offset + 2))))
  else items
termination_by data.length - offset
decreasing_by simp_all; omega

/-- `NSFNote._parse_items` from offset 0 with an empty mapping. -/
def parse_items (data : List Nat) : List (String × List Nat) :=
  parseItemsGo data 0 []

/-- The `(offset, length)` pairs of the items `_parse_items` accepts, in
scan order (same guards as `parseItemsGo`). -/
def scanEntries (data : List Nat) (offset : Nat) : List (Nat × Nat) :=
  if offset + 4 < data.length then
    if data.length < offset + 8 then []
    else if le16 data (offset + 2) = 0
        ∨ data.length < offset + le16 data (offset + 2) then []
    else (offset, le16 data (offset + 2))
      :: scanEntries data (offset + 4 + le16 data (offset + 2))
  else []
termination_by data.length - offset
decreasing_by simp_all; omega

/-- The `(key, value)` pairs of the scanned items, in scan order,
duplicates included. -/
def scanItems (data : List Nat) : List (String × List Nat) :=
  (scanEntries data 0).map (fun e => (itemKey data e.1, itemVal data e))

/-- `NSFNote`: id, class tag, raw payload and the item mapping. -/
structure NSFNote where
  note_id : Nat
  note_class : Nat
  data : List Nat
  items : List (String × List Nat)
deriving DecidableEq

/-- `NSFNote.__init__`: stores the payload and runs `_parse_items`. -/
def mkNote (note_id note_class : Nat) (data : List Nat) : NSFNote :=
  ⟨note_id, note_class, data, parse_items data⟩

/-- `NSFNote.get_text_item`: the LMBCS decoding of the item named
`item_name` when present. -/
def get_text_item (n : NSFNote) (item_name : String) : Option String :=
  (lookupD n.items item_name).map lmbcsDecode

/-- Lowercase hexadecimal digit. -/
def hexDigit (n : Nat) : Char :=
  if n < 10 then Char.ofNat (48 + n) else Char.ofNat (87 + n)

/-- One byte of CPython's `bytes.__repr__` body under quote character
`q`: backslash, the quote, TAB, LF and CR are escaped, printable ASCII
is literal, everything else becomes `\xhh`. -/
def pyByteEscape (q b : Nat) : List Char :=
  if b = 92 then ['\\', '\\']
  else if b = q then ['\\', Char.ofNat q]
  else if b = 9 then ['\\', 't']
  else if b = 10 then ['\\', 'n']
  else if b = 13 then ['\\', 'r']
  else if 32 ≤ b ∧ b ≤ 126 then [Char.ofNat b]
  else ['\\', 'x', hexDigit (b / 16), hexDigit (b % 16)]

/-- CPython `repr(bytes)`: single-quoted, switching to double quotes
when the bytes hold a single quote but no double quote. -/
def pyBytesRepr (bs : List Nat) : String :=
  let q : Nat := if bs.contains 39 ∧ ¬ bs.contains 34 then 34 else 39
  String.mk ('b' :: Char.ofNat q :: ((bs.map (pyByteEscape q)).flatten ++ [Char.ofNat q]))

/-- CPython `repr(str)` restricted to the keys occurring here
(`item_<digits>`: ASCII letters, digits and underscore, so no escaping
applies). -/
def pyStrRepr (s : String) : String := "'" ++ s ++ "'"

/-- CPython `str(dict)` for a `str → bytes` dict in insertion order. -/
def pyDictRepr (d : List (String × List Nat)) : String :=
  "\x7b" ++ String.intercalate ", "
    (d.map (fun p => pyStrRepr p.1 ++ ": " ++ pyBytesRepr p.2)) ++ "\x7d"

/-- Python `str.lower` on the ASCII strings produced above. -/
def asciiLower (s : String) : String :=
  String.mk (s.toList.map (fun c =>
    if 'A' ≤ c ∧ c ≤ 'Z' then Char.ofNat (c.toNat + 32) else c))

/-- `needle` is an initial segment of `hay`. -/
def isLeadOf : List Char → List Char → Bool
  | [], _ => true
  | _ :: _, [] => false
  | a :: as, b :: bs => a = b && isLeadOf as bs

/-- Python's substring test `needle in hay`. -/
def containsSub (needle : List Char) : List Char → Bool
  | [] => needle.isEmpty
  | c :: rest => isLeadOf needle (c :: rest) || containsSub needle rest

/-- Python `needle in hay` on strings. -/
def strContains (hay needle : String) : Bool :=
  containsSub needle.toList hay.toList

/-- `NSFParser._is_form_note`:
`note.note_class == 1024 and 'form' in str(note.items).lower()`. -/
def is_form_note (n : NSFNote) : Bool :=
  n.note_class = 1024 && strContains (asciiLower (pyDictRepr n.items)) "form"

/-- `NSFParser._is_view_note`:
`note.note_class == 1024 and 'view' in str(note.items).lower()`. -/
def is_view_note (n : NSFNote) : Bool :=
  n.note_class = 1024 && strContains (asciiLower (pyDictRepr n.items)) "view"

/-- `NSFParser._is_document_note`: `note.note_class == 512`. -/
def is_document_note (n : NSFNote) : Bool :=
  n.note_class = 512

/-- The semantic role a scanned record receives. -/
inductive NoteRole where
  | form
  | view
  | document
  | unknown
deriving DecidableEq

/-- The `if/elif` classification order of
`NSFParser._build_application_model`. -/
def classifyNote (n : NSFNote) : NoteRole :=
  if is_form_note n then .form
  else if is_view_note n then .view
  else if is_document_note n then .document
  else .unknown

/-- The decoded textual dump of all items as the specification words it:
each item's bytes run through the LMBCS decoder, concatenated in mapping
order. -/
def decodedDump (items : List (String × List Nat)) : String :=
  String.join (items.map (fun p => lmbcsDecode p.2))

/-- `models.FieldType`. -/
inductive FieldType where
  | text
  | number
  | date
  | time
  | datetime
  | boolean
  | rich_text
  | names
  | keywords
  | doclink
  | attachment
  | computed
deriving DecidableEq

/-- `models.FieldModel`, restricted to the attributes the parser sets
(the remaining pydantic attributes keep their constant defaults and
never vary). -/
structure FieldModel where
  id : String
  name : String
  type : FieldType
  label : String
  required : Bool := false
deriving DecidableEq

/-- `models.ColumnModel`, restricted to the attributes the parser sets. -/
structure ColumnModel where
  id : String
  name : String
  title : String
  data_type : FieldType := .text
deriving DecidableEq

/-- `models.FormModel`, restricted to the attributes the parser sets.
`datetime` values are the `Nat` clock reading. -/
structure FormModel where
  id : String
  name : String
  description : String
  fields : List FieldModel := []
  created_date : Option Nat := none
deriving DecidableEq

/-- `models.ViewModel`, restricted to the attributes the parser sets. -/
structure ViewModel where
  id : String
  name : String
  description : String
  columns : List ColumnModel := []
  created_date : Option Nat := none
  default_view : Bool := false
deriving DecidableEq

/-- `models.DocumentModel`, restricted to the attributes the parser sets;
the `fields` dict holds string values in insertion order. -/
structure DocumentModel where
  id : String
  form_name : String
  fields : List (String × String) := []
  created_date : Option Nat := none
deriving DecidableEq

/-- `models.ApplicationModel`, restricted to the attributes the parser
sets. -/
structure ApplicationModel where
  id : String
  name : String
  description : String
  created_date : Option Nat := none
  modified_date : Option Nat := none
  forms : List FormModel := []
  views : List ViewModel := []
  documents : List DocumentModel := []
deriving DecidableEq

/-- `datetime.isoformat()` of the abstract clock reading: some injective
rendering of the instant; only its dependence on the clock matters. -/
def pyIsoformat (t : Nat) : String := toString t

/-- `NSFParser._extract_form` (the `try` body never raises: the model
constructor is total and `get_text_item` is total). Python's
`x or default` falls back on `None` and on the empty string. -/
def extract_form (note : NSFNote) (now : Nat) : FormModel :=
  let form_name :=
    match get_text_item note "form_name" with
    | some s => if s = "" then "Form_" ++ toString note.note_id else s
    | none => "Form_" ++ toString note.note_id
  { id := toString note.note_id
    name := form_name
    description := "Form extracted from note " ++ toString note.note_id
    created_date := some now
    fields :=
      [ { id := "title", name := "Title", type := .text, label := "Title",
          required := true },
        { id := "content", name := "Content", type := .rich_text,
          label := "Content" },
        { id := "created_date", name := "Created", type := .datetime,
          label := "Created Date" } ] }

/-- `NSFParser._extract_view`. -/
def extract_view (note : NSFNote) (now : Nat) : ViewModel :=
  let view_name :=
    match get_text_item note "view_name" with
    | some s => if s = "" then "View_" ++ toString note.note_id else s
    | none => "View_" ++ toString note.note_id
  { id := toString note.note_id
    name := view_name
    description := "View extracted from note " ++ toString note.note_id
    created_date := some now
    columns :=
      [ { id := "title", name := "title", title := "Title",
          data_type := .text },
        { id := "created_date", name := "created_date", title := "Created",
          data_type := .datetime },
        { id := "author", name := "author", title := "Author",
          data_type := .text } ] }

/-- `NSFParser._extract_document`. -/
def extract_document (note : NSFNote) (now : Nat) : DocumentModel :=
  { id := toString note.note_id
    form_name := "DefaultForm"
    created_date := some now
    fields :=
      [ ("title", "Document " ++ toString note.note_id),
        ("content", "Sample document content"),
        ("created_date", pyIsoformat now) ] }

/-- `NSFParser._create_default_form`: four canonical fields. -/
def create_default_form : FormModel :=
  { id := "default_form"
    name := "DefaultForm"
    description := "Default form created during conversion"
    fields :=
      [ { id := "title", name := "Title", type := .text, label := "Title",
          required := true },
        { id := "content", name := "Content", type := .rich_text,
          label := "Content" },
        { id := "author", name := "Author", type := .text,
          label := "Author" },
        { id := "created_date", name := "Created", type := .datetime,
          label := "Created Date" } ] }

/-- `NSFParser._create_default_view`: three canonical columns, marked as
the default view. -/
def create_default_view : ViewModel :=
  { id := "default_view"
    name := "AllDocuments"
    description := "Default view showing all documents"
    columns :=
      [ { id := "title", name := "title", title := "Title",
          data_type := .text },
        { id := "author", name := "author", title := "Author",
          data_type := .text },
        { id := "created_date", name := "created_date", title := "Created",
          data_type := .datetime } ]
    default_view := true }

/-- The note loop of `_build_application_model`: each note is appended
to the forms, views or documents list by the `if/elif` chain, unknown
roles are dropped; order within each list is note order. -/
def buildLists (now : Nat) :
    List NSFNote → List FormModel × List ViewModel × List DocumentModel
  | [] => ([], [], [])
  | n :: ns =>
    let rest := buildLists now ns
    if is_form_note n then (extract_form n now :: rest.1, rest.2.1, rest.2.2)
    else if is_view_note n then (rest.1, extract_view n now :: rest.2.1, rest.2.2)
    else if is_document_note n then (rest.1, rest.2.1, extract_document n now :: rest.2.2)
    else rest

/-- `NSFParser._build_application_model`: assembles the model, then
appends one default form when no form note was found and one default
view when no view note was found.  The wall clock (`datetime.now()`) is
the explicit `now` argument. -/
def build_application_model (filename title : String) (notes : List NSFNote)
    (now : Nat) : ApplicationModel :=
  let lists := buildLists now notes
  { id := filename
    name := if title = "" then filename else title
    description := "Converted from " ++ filename
    created_date := some now
    modified_date := some now
    forms := if lists.1 = [] then [create_default_form] else lists.1
    views := if lists.2.1 = [] then [create_default_view] else lists.2.1
    documents := lists.2.2 }

/-- `NSFParser._parse_notes`, reading from the remaining stream `rem`:
a 16-byte frame prefix with `note_class` at offset 0 and `note_length`
at offset 4, the `note_length == 0 or note_length > 1024*1024` sanity
stop, the truncated-payload stop, and the post-append
`len(self.notes) > 100` cap. -/
def parseNotesGo (rem : List Nat) (note_id : Nat) (notes : List NSFNote) :
    List NSFNote :=
  if (rem.take 16).length < 16 then notes
  else if le32 (rem.take 16) 4 = 0 ∨ 1048576 < le32 (rem.take 16) 4 then notes
  else if ((rem.drop 16).take (le32 (rem.take 16) 4)).length
      < le32 (rem.take 16) 4 then notes
  else if 100 < (notes ++ [mkNote note_id (le16 (rem.take 16) 0)
      ((rem.drop 16).take (le32 (rem.take 16) 4))]).length then
    notes ++ [mkNote note_id (le16 (rem.take 16) 0)
      ((rem.drop 16).take (le32 (rem.take 16) 4))]
  else
    parseNotesGo ((rem.drop 16).drop (le32 (rem.take 16) 4)) (note_id + 1)
      (notes ++ [mkNote note_id (le16 (rem.take 16) 0)
        ((rem.drop 16).take (le32 (rem.take 16) 4))])
termination_by rem.length
decreasing_by simp_all; omega

/-- `NSFParser._parse_notes` from the first note with `note_id = 1`. -/
def parse_notes (rem : List Nat) : List NSFNote :=
  parseNotesGo rem 1 []

/-- `NSFParser._parse_nsf_stream`: 22 header bytes, then
`info_buffer_size` database-header bytes, then the note scan, then the
model build.  A short stream fails inside the file-header check exactly
as `stream.read(22)` returning fewer bytes does. -/
def parse_nsf_stream (bytes : List Nat) (filename : String) (now : Nat) :
    Except String ApplicationModel :=
  match parseFileHeader (bytes.take 22) with
  | .error e => .error e
  | .ok h =>
    .ok (build_application_model filename
      (parse_info_buffer ((bytes.drop 22).take h.info_buffer_size))
      (parse_notes ((bytes.drop 22).drop h.info_buffer_size)) now)

/-- One well-formed 17-byte record frame: a 16-byte header declaring
class 2 and payload length 1, followed by one payload byte. -/
def frame : List Nat :=
  [2, 0, 0, 0, 1, 0, 0, 0, 0, 0, 0, 0, 0, 0, 0, 0, 99]

/-- A stream of `k` consecutive well-formed record frames. -/
def frames : Nat → List Nat
  | 0 => []
  | k + 1 => frame ++ frames k

/-- Erase the wall-clock stamp from a form. -/
def stripForm (f : FormModel) : FormModel :=
  { f with created_date := none }

/-- Erase the wall-clock stamp from a view. -/
def stripView (v : ViewModel) : ViewModel :=
  { v with created_date := none }

/-- Erase the wall-clock stamps from a document, including the
`"created_date"` entry of its field mapping. -/
def stripDoc (d : DocumentModel) : DocumentModel :=
  { d with
    created_date := none
    fields := d.fields.map
      (fun p => if p.1 = "created_date" then (p.1, "") else p) }

/-- Erase every wall-clock stamp from an application model. -/
def stripApp (a : ApplicationModel) : ApplicationModel :=
  { a with
    created_date := none
    modified_date := none
    forms := a.forms.map stripForm
    views := a.views.map stripView
    documents := a.documents.map stripDoc }

/-! ## Lemmas about the text decoders -/

/-- UTF-8 `ignore` decoding of pure-ASCII bytes is the identity map. -/
lemma utf8DecodeIgnore_ascii (bs : List Nat) (h : ∀ b ∈ bs, b < 128) :
    utf8DecodeIgnore bs = bs.map Char.ofNat := by
  induction bs with
  | nil => simp [utf8DecodeIgnore]
  | cons b rest ih =>
    have hb : b < 128 := h b (by simp)
    rw [utf8DecodeIgnore.eq_def]
    simp [hb, ih (fun x hx => h x (by simp [hx]))]

/-- The LMBCS decoder maps a positive-ASCII prefix, stops at a NUL. -/
lemma lmbcsDecodeList_append_nul (pre suf : List Nat)
    (h : ∀ b ∈ pre, 0 < b ∧ b < 128) :
    lmbcsDecodeList (pre ++ 0 :: suf) = pre.map Char.ofNat := by
  induction pre with
  | nil => simp [lmbcsDecodeList]
  | cons b rest ih =>
    obtain ⟨hb0, hb⟩ := h b (by simp)
    have hne : b ≠ 0 := by omega
    simp [lmbcsDecodeList, hne, hb, ih (fun x hx => h x (by simp [hx]))]

/-- The LMBCS decoder hands everything from the first high byte on to
the single UTF-8 fallback. -/
lemma lmbcsDecodeList_append_high (pre : List Nat) (b : Nat) (suf : List Nat)
    (h : ∀ x ∈ pre, 0 < x ∧ x < 128) (hb : 128 ≤ b) :
    lmbcsDecodeList (pre ++ b :: suf)
      = pre.map Char.ofNat ++ utf8DecodeIgnore (b :: suf) := by
  induction pre with
  | nil =>
    have hne : b ≠ 0 := by omega
    have hnlt : ¬ b < 128 := by omega
    simp [lmbcsDecodeList, hne, hnlt]
  | cons x rest ih =>
    obtain ⟨hx0, hx⟩ := h x (by simp)
    have hne : x ≠ 0 := by omega
    simp [lmbcsDecodeList, hne, hx, ih (fun y hy => h y (by simp [hy]))]

/-- The LMBCS decoder is the identity on positive ASCII bytes. -/
lemma lmbcsDecodeList_ascii (bs : List Nat) (h : ∀ b ∈ bs, 0 < b ∧ b < 128) :
    lmbcsDecodeList bs = bs.map Char.ofNat := by
  induction bs with
  | nil => simp [lmbcsDecodeList]
  | cons b rest ih =>
    obtain ⟨hb0, hb⟩ := h b (by simp)
    have hne : b ≠ 0 := by omega
    simp [lmbcsDecodeList, hne, hb, ih (fun x hx => h x (by simp [hx]))]

/-- `bytes.split(b'\x00')[0]` of NUL-free bytes followed by a NUL. -/
lemma takeUntilNul_append (title rest : List Nat) (h : ∀ b ∈ title, b ≠ 0) :
    takeUntilNul (title ++ 0 :: rest) = title := by
  induction title with
  | nil => simp [takeUntilNul]
  | cons b bs ih =>
    have hb : b ≠ 0 := h b (by simp)
    simp [takeUntilNul, hb, ih (fun x hx => h x (by simp [hx]))]

/-- C7 (amended): for every byte input to `LMBCSDecoder.decode`, bytes
below 0x80 before any high byte map identically to their ASCII
characters; a 0x00 byte terminates decoding immediately, returning
exactly the preceding prefix; and on the first byte ≥ 0x80 the decoder
performs a single fallback decode of all remaining bytes as UTF-8 in
which every invalid sequence is DROPPED (Python's `errors='ignore'`, not
replaced by a replacement marker), then stops; the decoder is a total
function and never fails. -/
theorem claimC7_amended :
    (∀ pre suf : List Nat, (∀ b ∈ pre, 0 < b ∧ b < 128) →
      lmbcsDecode (pre ++ 0 :: suf) = String.mk (pre.map Char.ofNat)) ∧
    (∀ (pre : List Nat) (b : Nat) (suf : List Nat),
      (∀ x ∈ pre, 0 < x ∧ x < 128) → 128 ≤ b →
      lmbcsDecode (pre ++ b :: suf)
        = String.mk (pre.map Char.ofNat ++ utf8DecodeIgnore (b :: suf))) ∧
    (∀ bs : List Nat, (∀ b ∈ bs, 0 < b ∧ b < 128) →
      lmbcsDecode bs = String.mk (bs.map Char.ofNat)) := by
  refine ⟨fun pre suf h => ?_, fun pre b suf h hb => ?_, fun bs h => ?_⟩
  · simp [lmbcsDecode, lmbcsDecodeList_append_nul pre suf h]
  · simp [lmbcsDecode, lmbcsDecodeList_append_high pre b suf h hb]
  · simp [lmbcsDecode, lmbcsDecodeList_ascii bs h]

/-- Witness for C7: concrete instances of all three parts.
`[104,105,0,120]` decodes to `"hi"`; `[102,111,128,114,109]`
(`b'fo\x80rm'`) decodes to `"fo"` plus the UTF-8-ignore decoding of
`[128,114,109]`, which drops the invalid byte 0x80 and yields `"rm"`;
`[104,105]` decodes to `"hi"`. -/
theorem claimC7_witness :
    lmbcsDecode [104, 105, 0, 120] = "hi" ∧
    lmbcsDecode [102, 111, 128, 114, 109] = "form" ∧
    lmbcsDecode [104, 105] = "hi" := by
  refine ⟨?_, ?_, ?_⟩
  · have h := claimC7_amended.1 [104, 105] [120] (by decide)
    rw [show ([104, 105] : List Nat) ++ 0 :: [120] = [104, 105, 0, 120] from rfl] at h
    rw [h]; decide
  · have h := claimC7_amended.2.1 [102, 111] 128 [114, 109] (by decide) (by decide)
    rw [show ([102, 111] : List Nat) ++ 128 :: [114, 109] = [102, 111, 128, 114, 109]
      from rfl] at h
    rw [h]
    have hu : utf8DecodeIgnore [128, 114, 109] = ['r', 'm'] := by
      simp [utf8DecodeIgnore]
    rw [hu]; decide
  · have h := claimC7_amended.2.2 [104, 105] (by decide)
    rw [h]; decide

/-- Counterexample for C7 as stated: the claim says every invalid UTF-8
sequence in the fallback is replaced by a replacement marker, so
decoding the single invalid byte 0x80 would have to produce a non-empty
string holding the marker; the code's `errors='ignore'` drops it and
returns the empty string. -/
theorem claimC7_cex : lmbcsDecode [128] = "" := by
  have h : lmbcsDecodeList [128] = utf8DecodeIgnore [128] := by
    simp [lmbcsDecodeList]
  rw [lmbcsDecode, h, utf8DecodeIgnore.eq_def]
  norm_num
  rw [utf8DecodeIgnore.eq_def]

/-- C2 (amended): `NSFDatabaseHeader._parse_info_buffer` never fails;
the title window `info[64:128]` is read only when the buffer holds
STRICTLY more than 128 bytes (so the window is always full and never
truncated); any buffer of 128 bytes or fewer — in particular every
too-short buffer — yields the empty title; when the window is read, the
title is the bytes from offset 64 up to the first NUL, decoded with
invalid bytes dropped, so a NUL-terminated ASCII title at offset 64 is
returned exactly. -/
theorem claimC2_amended :
    (∀ info : List Nat, info.length ≤ 128 → parse_info_buffer info = "") ∧
    (∀ pad title rest : List Nat, pad.length = 64 → title.length ≤ 63 →
      (∀ b ∈ title, 0 < b ∧ b < 128) →
      128 < pad.length + title.length + 1 + rest.length →
      parse_info_buffer (pad ++ title ++ 0 :: rest)
        = String.mk (title.map Char.ofNat)) := by
  constructor
  · intro info hlen
    simp [parse_info_buffer, Nat.not_lt.mpr hlen]
  · intro pad title rest hpad htitle hascii hlen
    have hlen' : 128 < (pad ++ title ++ 0 :: rest).length := by
      simp; omega
    have hwin : ((pad ++ title ++ 0 :: rest).drop 64).take 64
        = title ++ 0 :: rest.take (63 - title.length) := by
      obtain ⟨k, hk⟩ : ∃ k, 64 - title.length = k + 1 :=
        ⟨63 - title.length, by omega⟩
      have hk' : k = 63 - title.length := by omega
      rw [List.append_assoc, ← hpad, List.drop_left, hpad,
        List.take_append_eq_append_take,
        List.take_of_length_le (by omega : title.length ≤ 64),
        hk, List.take_succ_cons, hk']
    rw [parse_info_buffer, if_pos hlen', hwin,
      takeUntilNul_append title _ (fun b hb => by have := (hascii b hb).1; omega),
      utf8DecodeIgnore_ascii title (fun b hb => (hascii b hb).2)]

/-- Witness for C2: a 192-byte buffer whose window holds the
NUL-terminated ASCII title `"T"` at offset 64 yields `"T"`; a 100-byte
buffer yields the empty title. -/
theorem claimC2_witness :
    parse_info_buffer (List.replicate 64 32 ++ [84] ++ 0 :: List.replicate 126 0)
      = "T" ∧
    parse_info_buffer (List.replicate 100 7) = "" := by
  constructor
  · have h := claimC2_amended.2 (List.replicate 64 32) [84] (List.replicate 126 0)
      (by simp) (by simp) (by decide) (by simp)
    rw [h]; decide
  · exact claimC2_amended.1 (List.replicate 100 7) (by simp)

/-- Counterexample for C2 as stated: the claim promises the title for
every buffer of length AT LEAST 128 whose window holds a NUL-terminated
ASCII title at offset 64.  This buffer has length exactly 128 and holds
the ASCII title `"T"` (84, then NUL) at offset 64, yet the code's strict
`> 128` guard skips the window entirely and returns the empty title. -/
theorem claimC2_cex :
    (List.replicate 64 32 ++ [84] ++ 0 :: List.replicate 62 0).length = 128 ∧
    parse_info_buffer (List.replicate 64 32 ++ [84] ++ 0 :: List.replicate 62 0)
      = "" ∧
    ("" : String) ≠ "T" := by
  refine ⟨by simp, ?_, by decide⟩
  rw [parse_info_buffer, if_neg (by simp)]

/-! ## File header -/

/-- `le16` read back from explicit byte positions. -/
lemma le16_at2 (a b c d : Nat) (l : List Nat) :
    le16 (a :: b :: c :: d :: l) 2 = c + 256 * d := rfl

lemma le16_at4 (a b c d e f : Nat) (l : List Nat) :
    le16 (a :: b :: c :: d :: e :: f :: l) 4 = e + 256 * f := rfl

lemma le16_at6 (a b c d e f g h : Nat) (l : List Nat) :
    le16 (a :: b :: c :: d :: e :: f :: g :: h :: l) 6 = g + 256 * h := rfl

/-- C4 (confirmed): `NSFFileHeader.__init__` fails if and only if fewer
than 22 bytes are available or the leading 2 bytes differ from the fixed
signature `b'\x1a\x00'`; on every buffer whose first 22 bytes form a
valid header it returns version, infoBufferSize and classId bit-exact as
the little-endian 16-bit integers at offsets 2, 4 and 6, with no other
state change (the parse is a pure function of the buffer). -/
theorem claimC4 :
    (∀ data : List Nat,
      (∃ e, parseFileHeader data = .error e) ↔
        (data.length < 22 ∨ data.take 2 ≠ [26, 0])) ∧
    (∀ (v s c : Nat) (tail : List Nat), v < 65536 → s < 65536 → c < 65536 →
      14 ≤ tail.length →
      parseFileHeader ([26, 0] ++ enc16 v ++ enc16 s ++ enc16 c ++ tail)
        = .ok ⟨v, s, c⟩) := by
  constructor
  · intro data
    by_cases h1 : data.length < 22
    · simp [parseFileHeader, h1]
    · by_cases h2 : data.take 2 = [26, 0]
      · simp [parseFileHeader, h1, h2]
      · simp [parseFileHeader, h1, h2]
  · intro v s c tail hv hs hc htail
    have hdata : ([26, 0] ++ enc16 v ++ enc16 s ++ enc16 c ++ tail)
        = 26 :: 0 :: (v % 256) :: (v / 256) :: (s % 256) :: (s / 256)
          :: (c % 256) :: (c / 256) :: tail := by
      simp [enc16]
    have h1 : v % 256 + 256 * (v / 256) = v := by omega
    have h2 : s % 256 + 256 * (s / 256) = s := by omega
    have h3 : c % 256 + 256 * (c / 256) = c := by omega
    have hsig : ¬ (List.take 2 (26 :: 0 :: (v % 256) :: (v / 256) :: (s % 256)
        :: (s / 256) :: (c % 256) :: (c / 256) :: tail) ≠ [26, 0]) :=
      fun hne => hne rfl
    rw [hdata, parseFileHeader,
      if_neg (by simp; omega),
      if_neg hsig,
      le16_at2, le16_at4, le16_at6, h1, h2, h3]

/-- Witness for C4: the encoded header with version 43, info-buffer size
128, class id 2 and a 14-byte zero tail parses to exactly those values;
and the empty buffer fails. -/
theorem claimC4_witness :
    parseFileHeader ([26, 0] ++ enc16 43 ++ enc16 128 ++ enc16 2
        ++ List.replicate 14 0) = .ok ⟨43, 128, 2⟩ ∧
    (∃ e, parseFileHeader [] = .error e) := by
  constructor
  · exact claimC4.2 43 128 2 (List.replicate 14 0)
      (by decide) (by decide) (by decide) (by decide)
  · exact (claimC4.1 []).mpr (by decide)

/-! ## Item-scan lemmas -/

/-- The item scan returns its mapping unchanged when fewer than 8 bytes
remain past the current offset (the `while offset < len - 4` guard
together with the `offset + 8 > len` break). -/
lemma parseItemsGo_stop_short (data : List Nat) (off : Nat)
    (d : List (String × List Nat)) (h : data.length < off + 8) :
    parseItemsGo data off d = d := by
  by_cases h4 : off + 4 < data.length
  · rw [parseItemsGo.eq_def, if_pos h4, if_pos h]
  · rw [parseItemsGo.eq_def, if_neg h4]

/-- The item scan returns its mapping unchanged on a zero declared
length or when `offset + length` exceeds the payload bound. -/
lemma parseItemsGo_stop_bad (data : List Nat) (off : Nat)
    (d : List (String × List Nat)) (h8 : off + 8 ≤ data.length)
    (hbad : le16 data (off + 2) = 0 ∨ data.length < off + le16 data (off + 2)) :
    parseItemsGo data off d = d := by
  rw [parseItemsGo.eq_def,
    if_pos (by omega : off + 4 < data.length),
    if_neg (by omega : ¬ data.length < off + 8),
    if_pos hbad]

/-- One accepted item: the scan stores the sliced value under the
synthesized key and continues past the item. -/
lemma parseItemsGo_step (data : List Nat) (off : Nat)
    (d : List (String × List Nat)) (h8 : off + 8 ≤ data.length)
    (h0 : le16 data (off + 2) ≠ 0)
    (hb : off + le16 data (off + 2) ≤ data.length) :
    parseItemsGo data off d
      = parseItemsGo data (off + 4 + le16 data (off + 2))
          (dictSet d (itemKey data off)
            (itemVal data (off, le16 data (off + 2)))) := by
  rw [parseItemsGo.eq_def,
    if_pos (by omega : off + 4 < data.length),
    if_neg (by omega : ¬ data.length < off + 8),
    if_neg (by push_neg; exact ⟨h0, by omega⟩)]

/-- `scanEntries` mirrors the same three stop conditions. -/
lemma scanEntries_stop (data : List Nat) (off : Nat)
    (h : data.length < off + 8
      ∨ le16 data (off + 2) = 0
      ∨ data.length < off + le16 data (off + 2)) :
    scanEntries data off = [] := by
  by_cases h4 : off + 4 < data.length
  · by_cases h8 : data.length < off + 8
    · rw [scanEntries.eq_def, if_pos h4, if_pos h8]
    · have hbad := h.resolve_left h8
      rw [scanEntries.eq_def, if_pos h4, if_neg h8, if_pos hbad]
  · rw [scanEntries.eq_def, if_neg h4]

/-- `scanEntries` accepts the same item the scan accepts. -/
lemma scanEntries_step (data : List Nat) (off : Nat)
    (h8 : off + 8 ≤ data.length) (h0 : le16 data (off + 2) ≠ 0)
    (hb : off + le16 data (off + 2) ≤ data.length) :
    scanEntries data off
      = (off, le16 data (off + 2))
        :: scanEntries data (off + 4 + le16 data (off + 2)) := by
  rw [scanEntries.eq_def,
    if_pos (by omega : off + 4 < data.length),
    if_neg (by omega : ¬ data.length < off + 8),
    if_neg (by push_neg; exact ⟨h0, by omega⟩)]

/-- The item scan is the fold of `dictSet` over the accepted entries. -/
lemma parseItemsGo_eq_fold (n : Nat) : ∀ (data : List Nat) (off : Nat)
    (d : List (String × List Nat)), data.length - off ≤ n →
    parseItemsGo data off d
      = (scanEntries data off).foldl
          (fun acc e => dictSet acc (itemKey data e.1) (itemVal data e)) d := by
  induction n with
  | zero =>
    intro data off d h
    rw [parseItemsGo_stop_short data off d (by omega),
      scanEntries_stop data off (by omega), List.foldl_nil]
  | succ n ih =>
    intro data off d h
    by_cases h8 : data.length < off + 8
    · rw [parseItemsGo_stop_short data off d h8,
        scanEntries_stop data off (by omega), List.foldl_nil]
    · by_cases hbad : le16 data (off + 2) = 0
        ∨ data.length < off + le16 data (off + 2)
      · rw [parseItemsGo_stop_bad data off d (by omega) hbad,
          scanEntries_stop data off (by omega), List.foldl_nil]
      · push_neg at hbad
        rw [parseItemsGo_step data off d (by omega) hbad.1 (by omega),
          scanEntries_step data off (by omega) hbad.1 (by omega),
          List.foldl_cons]
        exact ih data (off + 4 + le16 data (off + 2)) _ (by omega)

/-- `_parse_items` as a fold of Python dict assignment over the scanned
`(key, value)` pairs in scan order. -/
lemma parse_items_eq_fold (data : List Nat) :
    parse_items data
      = (scanItems data).foldl (fun acc p => dictSet acc p.1 p.2) [] := by
  rw [parse_items, parseItemsGo_eq_fold (data.length) data 0 [] (by omega),
    scanItems, List.foldl_map]

/-- Every accepted entry sits at or past the scan offset and is
in bounds: 8 header-window bytes available, `offset + length` within
the payload, positive declared length. -/
lemma scanEntries_mem_bounds (n : Nat) : ∀ (data : List Nat) (off : Nat),
    data.length - off ≤ n → ∀ e ∈ scanEntries data off,
    off ≤ e.1 ∧ e.1 + 8 ≤ data.length ∧ e.1 + e.2 ≤ data.length ∧ 0 < e.2
      ∧ e.2 = le16 data (e.1 + 2) := by
  induction n with
  | zero =>
    intro data off h e he
    rw [scanEntries_stop data off (by omega)] at he
    simp at he
  | succ n ih =>
    intro data off h e he
    by_cases h8 : data.length < off + 8
    · rw [scanEntries_stop data off (by omega)] at he
      simp at he
    · by_cases hbad : le16 data (off + 2) = 0
        ∨ data.length < off + le16 data (off + 2)
      · rw [scanEntries_stop data off (by omega)] at he
        simp at he
      · push_neg at hbad
        rw [scanEntries_step data off (by omega) hbad.1 (by omega)] at he
        rcases List.mem_cons.mp he with rfl | he'
        · refine ⟨le_refl _, by omega, by omega, by omega, rfl⟩
        · have := ih data (off + 4 + le16 data (off + 2)) (by omega) e he'
          exact ⟨by omega, this.2⟩

/-- The head of a non-empty entry list starts at the scan offset. -/
lemma scanEntries_head (data : List Nat) (off : Nat) (e : Nat × Nat)
    (es : List (Nat × Nat)) (h : scanEntries data off = e :: es) :
    e.1 = off := by
  by_cases h8 : data.length < off + 8
  · rw [scanEntries_stop data off (by omega)] at h; exact absurd h (by simp)
  · by_cases hbad : le16 data (off + 2) = 0
      ∨ data.length < off + le16 data (off + 2)
    · rw [scanEntries_stop data off (by omega)] at h; exact absurd h (by simp)
    · push_neg at hbad
      rw [scanEntries_step data off (by omega) hbad.1 (by omega)] at h
      injection h with h1 h2
      rw [← h1]

/-- Consecutive accepted entries are contiguous: each next entry starts
exactly 4 header bytes plus the declared length after the previous. -/
lemma scanEntries_chain (n : Nat) : ∀ (data : List Nat) (off : Nat),
    data.length - off ≤ n →
    List.Chain' (fun a b => b.1 = a.1 + 4 + a.2) (scanEntries data off) := by
  induction n with
  | zero =>
    intro data off h
    rw [scanEntries_stop data off (by omega)]
    exact List.chain'_nil
  | succ n ih =>
    intro data off h
    by_cases h8 : data.length < off + 8
    · rw [scanEntries_stop data off (by omega)]; exact List.chain'_nil
    · by_cases hbad : le16 data (off + 2) = 0
        ∨ data.length < off + le16 data (off + 2)
      · rw [scanEntries_stop data off (by omega)]; exact List.chain'_nil
      · push_neg at hbad
        rw [scanEntries_step data off (by omega) hbad.1 (by omega)]
        rw [List.chain'_cons']
        refine ⟨?_, ih data (off + 4 + le16 data (off + 2)) (by omega)⟩
        intro b hb
        cases hs : scanEntries data (off + 4 + le16 data (off + 2)) with
        | nil => rw [hs] at hb; simp at hb
        | cons e es =>
          rw [hs] at hb
          simp at hb
          rw [← hb, scanEntries_head data _ e es hs]

/-- Every accepted entry other than the last fits with its 4-byte header
inside the payload. -/
lemma scanEntries_dropLast_fit (n : Nat) : ∀ (data : List Nat) (off : Nat),
    data.length - off ≤ n → ∀ e ∈ (scanEntries data off).dropLast,
    e.1 + 4 + e.2 + 4 ≤ data.length := by
  induction n with
  | zero =>
    intro data off h e he
    rw [scanEntries_stop data off (by omega)] at he
    simp at he
  | succ n ih =>
    intro data off h e he
    by_cases h8 : data.length < off + 8
    · rw [scanEntries_stop data off (by omega)] at he; simp at he
    · by_cases hbad : le16 data (off + 2) = 0
        ∨ data.length < off + le16 data (off + 2)
      · rw [scanEntries_stop data off (by omega)] at he; simp at he
      · push_neg at hbad
        rw [scanEntries_step data off (by omega) hbad.1 (by omega)] at he
        cases hs : scanEntries data (off + 4 + le16 data (off + 2)) with
        | nil => rw [hs] at he; simp at he
        | cons e' es =>
          rw [hs, List.dropLast_cons_of_ne_nil (by simp)] at he
          rcases List.mem_cons.mp he with rfl | he'
          · have hb := scanEntries_mem_bounds (n + 1) data
              (off + 4 + le16 data (off + 2)) (by omega) e'
              (by rw [hs]; exact List.mem_cons_self ..)
            have h1 := scanEntries_head data _ e' es hs
            show off + 4 + le16 data (off + 2) + 4 ≤ data.length
            omega
          · have := ih data (off + 4 + le16 data (off + 2)) (by omega) e
              (by rw [hs]; exact he')
            exact this

/-! ## Dict lemmas -/

/-- Replacing the value of every pair keyed `k'` commutes with `find?`. -/
lemma find?_replaceKey (k' k : String) (v : List Nat) :
    ∀ d : List (String × List Nat),
    (d.map (fun p => if p.1 = k' then (k', v) else p)).find? (fun p => p.1 = k)
      = if k' = k
        then (d.find? (fun p => p.1 = k)).map (fun _ => (k, v))
        else d.find? (fun p => p.1 = k) := by
  intro d
  induction d with
  | nil => by_cases h : k' = k <;> simp [h]
  | cons p d' ih =>
    by_cases hp : p.1 = k' <;> by_cases hk : k' = k
    · subst hk
      simp [List.find?_cons, hp, ih]
    · simp only [List.map_cons, if_pos hp]
      rw [List.find?_cons_of_neg _ (by simp [hk]),
        List.find?_cons_of_neg _ (by simp [hp ▸ hk]), ih, if_neg hk]
    · subst hk
      simp only [List.map_cons, if_neg hp]
      rw [List.find?_cons_of_neg _ (by simp [hp]),
        List.find?_cons_of_neg _ (by simp [hp]), ih]
      simp
    · simp only [List.map_cons, if_neg hp]
      by_cases hpk : p.1 = k
      · rw [List.find?_cons_of_pos _ (by simp [hpk]),
          List.find?_cons_of_pos _ (by simp [hpk]), if_neg hk]
      · rw [List.find?_cons_of_neg _ (by simp [hpk]),
          List.find?_cons_of_neg _ (by simp [hpk]), ih, if_neg hk]

/-- Python dict assignment followed by lookup. -/
lemma lookupD_dictSet (d : List (String × List Nat)) (k' k : String)
    (v : List Nat) :
    lookupD (dictSet d k' v) k = if k' = k then some v else lookupD d k := by
  by_cases hmem : d.any (fun p => p.1 = k')
  · rw [dictSet, if_pos hmem, lookupD, find?_replaceKey]
    by_cases hk : k' = k
    · rw [if_pos hk, if_pos hk]
      have hsome : (d.find? (fun q => q.1 = k)).isSome := by
        rw [List.find?_isSome]
        simp only [List.any_eq_true, decide_eq_true_eq] at hmem
        obtain ⟨p, hp, hpk⟩ := hmem
        exact ⟨p, hp, by simp [hpk, hk]⟩
      obtain ⟨q, hq⟩ := Option.isSome_iff_exists.mp hsome
      rw [hk] at *
      rw [hq]
      simp
    · rw [if_neg hk, if_neg hk, lookupD]
  · rw [dictSet, if_neg hmem, lookupD, List.find?_append]
    by_cases hk : k' = k
    · have hnone : d.find? (fun p => p.1 = k) = none := by
        rw [List.find?_eq_none]
        intro p hp
        simp only [List.any_eq_true, decide_eq_true_eq, not_exists] at hmem
        simp only [decide_eq_true_eq]
        intro hc
        exact absurd ⟨hp, by rw [hc, hk]⟩ (hmem p)
      rw [hnone, if_pos hk]
      simp [hk]
    · rw [if_neg hk, lookupD]
      have htail : ([(k', v)].find? (fun p => p.1 = k)) = none := by
        simp [hk]
      rw [htail]
      cases hfind : d.find? (fun p => p.1 = k) <;> simp

/-- Looking up `k` after folding dict assignments over `l` returns the
value of the last pair keyed `k` in `l`, falling back to the initial
mapping. -/
lemma lookupD_foldl (l : List (String × List Nat)) :
    ∀ (d : List (String × List Nat)) (k : String),
    lookupD (l.foldl (fun acc p => dictSet acc p.1 p.2) d) k
      = match lastPick k l with
        | some v => some v
        | none => lookupD d k := by
  induction l with
  | nil => intro d k; simp [lastPick]
  | cons p l' ih =>
    intro d k
    rw [List.foldl_cons, ih]
    cases h : lastPick k l' with
    | some v => simp [lastPick, h]
    | none =>
      simp only [lastPick, h, lookupD_dictSet]
      by_cases hp : p.1 = k <;> simp [hp]

/-- `dictSet` keeps the key list duplicate-free. -/
lemma nodup_keys_dictSet (d : List (String × List Nat)) (k : String)
    (v : List Nat) (h : (d.map Prod.fst).Nodup) :
    ((dictSet d k v).map Prod.fst).Nodup := by
  by_cases hmem : d.any (fun p => p.1 = k)
  · rw [dictSet, if_pos hmem, List.map_map]
    have heq : (d.map (Prod.fst ∘ fun p => if p.1 = k then (k, v) else p))
        = d.map Prod.fst := by
      apply List.map_congr_left
      intro p hp
      by_cases hpk : p.1 = k <;> simp [hpk]
    rw [heq]
    exact h
  · rw [dictSet, if_neg hmem, List.map_append]
    rw [List.nodup_append]
    refine ⟨h, by simp, ?_⟩
    intro a ha
    simp only [List.map_cons, List.map_nil, List.mem_singleton]
    intro hak
    simp only [List.any_eq_true, decide_eq_true_eq, not_exists] at hmem
    obtain ⟨p, hp, rfl⟩ := List.mem_map.mp ha
    exact absurd ⟨hp, by rw [hak]⟩ (hmem p)

/-- Folding dict assignments keeps the key list duplicate-free. -/
lemma nodup_keys_foldl (l : List (String × List Nat)) :
    ∀ d : List (String × List Nat), (d.map Prod.fst).Nodup →
    (((l.foldl (fun acc p => dictSet acc p.1 p.2) d)).map Prod.fst).Nodup := by
  induction l with
  | nil => intro d h; exact h
  | cons p l' ih =>
    intro d h
    rw [List.foldl_cons]
    exact ih _ (nodup_keys_dictSet d p.1 p.2 h)

/-- Every pair in a dict after assignment was already present or is the
assigned pair. -/
lemma mem_dictSet (d : List (String × List Nat)) (k : String) (v : List Nat)
    (p : String × List Nat) (h : p ∈ dictSet d k v) : p ∈ d ∨ p = (k, v) := by
  by_cases hmem : d.any (fun q => q.1 = k)
  · rw [dictSet, if_pos hmem] at h
    obtain ⟨q, hq, hqp⟩ := List.mem_map.mp h
    by_cases hqk : q.1 = k
    · right; rw [← hqp, if_pos hqk]
    · left; rw [← hqp, if_neg hqk]; exact hq
  · rw [dictSet, if_neg hmem] at h
    rcases List.mem_append.mp h with h' | h'
    · exact Or.inl h'
    · exact Or.inr (List.mem_singleton.mp h')

/-- Every pair in a fold of dict assignments was in the initial dict or
is one of the assigned pairs. -/
lemma mem_foldl_dictSet (l : List (String × List Nat)) :
    ∀ (d : List (String × List Nat)) (p : String × List Nat),
    p ∈ l.foldl (fun acc q => dictSet acc q.1 q.2) d → p ∈ d ∨ p ∈ l := by
  induction l with
  | nil => intro d p h; exact Or.inl h
  | cons q l' ih =>
    intro d p h
    rw [List.foldl_cons] at h
    rcases ih _ p h with h' | h'
    · rcases mem_dictSet d q.1 q.2 p h' with h'' | h''
      · exact Or.inl h''
      · exact Or.inr (by rw [h'']; exact List.mem_cons_self ..)
    · exact Or.inr (List.mem_cons_of_mem _ h')

/-- At most one entry per key in a mapping with duplicate-free keys. -/
lemma countP_le_one_of_nodup_keys (d : List (String × List Nat))
    (h : (d.map Prod.fst).Nodup) (k : String) :
    d.countP (fun p => p.1 = k) ≤ 1 := by
  have hc : d.countP (fun p => p.1 = k) = List.count k (d.map Prod.fst) := by
    rw [List.count, List.countP_map]
    exact List.countP_congr (fun p hp => by
      by_cases h : p.1 = k <;> simp [Function.comp, h])
  rw [hc]
  exact List.nodup_iff_count_le_one.mp h k

/-- `le16` at offset 0 of an explicit byte list. -/
lemma le16_at0 (a b : Nat) (l : List Nat) :
    le16 (a :: b :: l) 0 = a + 256 * b := rfl

/-- C8 (amended): the item scan stops without error exactly when fewer
than 8 bytes remain past the current offset (the `while offset < len-4`
guard plus the `offset+8 > len` break: not 4 as stated), when the
declared length is 0, or when `offset + length` (the declared length
WITHOUT its 4-byte header) would exceed the payload bound; in every such
case the partially-populated item mapping built so far is kept.  A
payload holding one well-formed item followed by a 4-to-7-byte tail
yields exactly the item before the tail; the tail is never parsed as an
item, whether or not its prefix would fit. -/
theorem claimC8_amended :
    (∀ (data : List Nat) (off : Nat) (d : List (String × List Nat)),
      data.length < off + 8 → parseItemsGo data off d = d) ∧
    (∀ (data : List Nat) (off : Nat) (d : List (String × List Nat)),
      off + 8 ≤ data.length →
      (le16 data (off + 2) = 0 ∨ data.length < off + le16 data (off + 2)) →
      parseItemsGo data off d = d) ∧
    (∀ (t L : Nat) (v tail : List Nat), t < 65536 → L < 65536 →
      v.length = L → 0 < L → 4 ≤ tail.length → tail.length ≤ 7 →
      parse_items ((t % 256) :: (t / 256) :: (L % 256) :: (L / 256)
          :: (v ++ tail))
        = [("item_" ++ toString t, v)]) := by
  refine ⟨parseItemsGo_stop_short,
    fun data off d h8 hbad => parseItemsGo_stop_bad data off d h8 hbad,
    fun t L v tail ht hL hv hL0 ht4 ht7 => ?_⟩
  have hlen : ((t % 256) :: (t / 256) :: (L % 256) :: (L / 256)
      :: (v ++ tail)).length = 4 + (L + tail.length) := by
    simp [hv]; omega
  have hle2 : le16 ((t % 256) :: (t / 256) :: (L % 256) :: (L / 256)
      :: (v ++ tail)) 2 = L := by
    rw [le16_at2]; omega
  have hle0 : le16 ((t % 256) :: (t / 256) :: (L % 256) :: (L / 256)
      :: (v ++ tail)) 0 = t := by
    rw [le16_at0]; omega
  rw [parse_items,
    parseItemsGo_step _ 0 [] (by omega) (by rw [hle2]; omega)
      (by rw [hle2]; omega),
    hle2,
    parseItemsGo_stop_short _ _ _ (by omega)]
  rw [itemKey, hle0, itemVal, dictSet]
  simp only [List.any_nil, Bool.false_eq_true, if_false, List.nil_append]
  have hdrop : ((t % 256) :: (t / 256) :: (L % 256) :: (L / 256)
      :: (v ++ tail)).drop (0 + 4) = v ++ tail := rfl
  rw [hdrop, ← hv, List.take_left]

/-- Witness for C8: `[1,0,3,0,97,98,99,0,0,0,0]` is one well-formed item
(type 1, length 3, bytes `[97,98,99]`) followed by a 4-byte tail; the
scan yields exactly that item. -/
theorem claimC8_witness :
    parse_items [1, 0, 3, 0, 97, 98, 99, 0, 0, 0, 0]
      = [("item_1", [97, 98, 99])] := by
  have h := claimC8_amended.2.2 1 3 [97, 98, 99] [0, 0, 0, 0]
    (by decide) (by decide) (by decide) (by decide) (by decide) (by decide)
  rw [show ((1 % 256) :: (1 / 256) :: (3 % 256) :: (3 / 256)
      :: ([97, 98, 99] ++ [0, 0, 0, 0]) : List Nat)
    = [1, 0, 3, 0, 97, 98, 99, 0, 0, 0, 0] from rfl] at h
  rw [h]
  rfl

/-- Counterexample for C8 as stated: the payload `[1,0,3,0,97,98,99]`
has 7 bytes, so at offset 0 at least 4 bytes remain, the declared length
3 is non-zero, and `offset + 4 + length = 7` fits the payload; by the
claim the item would be scanned, but the code's `while offset < len - 4`
guard with the `offset + 8 > len` break needs 8 bytes and stops at once
with an empty mapping. -/
theorem claimC8_cex : parse_items [1, 0, 3, 0, 97, 98, 99] = [] := by
  rw [parse_items, parseItemsGo_stop_short _ 0 [] (by simp)]

/-- C9 (amended): every stored item's range `offset + length` is within
the payload and the scanned ranges are contiguous and non-overlapping;
items other than the LAST are stored with exactly their declared
`length` bytes; but the bound check omits the item's 4-byte header
(`offset + length`, not `offset + 4 + length`), so the final stored item
holds `min length (payloadLen - (offset+4))` bytes and can be truncated
short of its declared length; every stored mapping value is the slice of
some scanned entry. -/
theorem claimC9_amended : ∀ data : List Nat,
    (∀ e ∈ scanEntries data 0, e.1 + e.2 ≤ data.length ∧
      (itemVal data e).length = min e.2 (data.length - (e.1 + 4))) ∧
    List.Chain' (fun a b => b.1 = a.1 + 4 + a.2) (scanEntries data 0) ∧
    (∀ e ∈ (scanEntries data 0).dropLast, (itemVal data e).length = e.2) ∧
    (∀ k v, (k, v) ∈ parse_items data →
      ∃ e ∈ scanEntries data 0, k = itemKey data e.1 ∧ v = itemVal data e) := by
  intro data
  refine ⟨fun e he => ?_, scanEntries_chain data.length data 0 (by omega),
    fun e he => ?_, fun k v hkv => ?_⟩
  · have hb := scanEntries_mem_bounds data.length data 0 (by omega) e he
    exact ⟨hb.2.2.1, by simp [itemVal]⟩
  · have hfit := scanEntries_dropLast_fit data.length data 0 (by omega) e he
    simp [itemVal]
    omega
  · rw [parse_items_eq_fold] at hkv
    rcases mem_foldl_dictSet _ [] (k, v) hkv with h | h
    · simp at h
    · obtain ⟨e, he, heq⟩ := List.mem_map.mp h
      refine ⟨e, he, ?_, ?_⟩
      · exact (congrArg Prod.fst heq.symm)
      · exact (congrArg Prod.snd heq.symm)

/-- Witness for C9: on `[1,0,5,0,97,98,99,100,101,2,0,4,0,1,2,3,4]` the
scan accepts entries `(0,5)` and `(9,4)`; the non-final entry `(0,5)` is
stored with exactly its declared 5 bytes. -/
theorem claimC9_witness :
    (itemVal [1, 0, 5, 0, 97, 98, 99, 100, 101, 2, 0, 4, 0, 1, 2, 3, 4]
      (0, 5)).length = 5 := by
  have hs : scanEntries [1, 0, 5, 0, 97, 98, 99, 100, 101,
      2, 0, 4, 0, 1, 2, 3, 4] 0 = [(0, 5), (9, 4)] := by
    simp [scanEntries, le16]
  exact (claimC9_amended _).2.2.1 (0, 5) (by rw [hs]; decide)

/-- Counterexample for C9 as stated: payload `[1,0,8,0,10,20,30,40,50,60]`
declares an item of length 8 at offset 0; the bound check
`offset + length = 8 ≤ 10` passes although only 6 payload bytes follow
the 4-byte header, and the stored value is truncated to those 6 bytes,
not the declared 8. -/
theorem claimC9_cex :
    parse_items [1, 0, 8, 0, 10, 20, 30, 40, 50, 60]
      = [("item_1", [10, 20, 30, 40, 50, 60])] ∧
    le16 [1, 0, 8, 0, 10, 20, 30, 40, 50, 60] 2 = 8 ∧
    ([10, 20, 30, 40, 50, 60] : List Nat).length ≠ 8 := by
  refine ⟨?_, by decide, by decide⟩
  simp [parse_items, parseItemsGo, le16, itemKey, itemVal, dictSet]
  rfl

/-- C10 (confirmed): the item mapping is a Python dict keyed by the
synthesized `item_<type>` string, so for any key it holds at most one
entry, and its value is the value of the LAST scanned item with that
key (last write wins); hence the mapping can hold fewer entries than the
scan accepted, as the duplicate-type payload
`[1,0,1,0,97,1,0,1,0,98,0,0,0]` shows (2 items scanned, 1 entry kept,
carrying the later item's byte `98`). -/
theorem claimC10 :
    (∀ (data : List Nat) (k : String),
      (parse_items data).countP (fun p => p.1 = k) ≤ 1 ∧
      lookupD (parse_items data) k = lastPick k (scanItems data)) ∧
    (parse_items [1, 0, 1, 0, 97, 1, 0, 1, 0, 98, 0, 0, 0]).length
        < (scanItems [1, 0, 1, 0, 97, 1, 0, 1, 0, 98, 0, 0, 0]).length ∧
    lookupD (parse_items [1, 0, 1, 0, 97, 1, 0, 1, 0, 98, 0, 0, 0]) "item_1"
        = some [98] := by
  have hscan : scanEntries [1, 0, 1, 0, 97, 1, 0, 1, 0, 98, 0, 0, 0] 0
      = [(0, 1), (5, 1)] := by
    simp [scanEntries, le16]
  have hpi : parse_items [1, 0, 1, 0, 97, 1, 0, 1, 0, 98, 0, 0, 0]
      = [("item_1", [98])] := by
    simp [parse_items, parseItemsGo, le16, itemKey, itemVal, dictSet]
    rfl
  refine ⟨fun data k => ⟨?_, ?_⟩, ?_, ?_⟩
  · apply countP_le_one_of_nodup_keys
    rw [parse_items_eq_fold]
    exact nodup_keys_foldl _ [] (by simp)
  · rw [parse_items_eq_fold, lookupD_foldl]
    cases h : lastPick k (scanItems data) <;> simp [lookupD]
  · rw [hpi, scanItems, hscan]
    simp
  · rw [hpi]
    decide

/-! ## Note-scan lemmas -/

/-- The note scan stops at end of stream (fewer than 16 header bytes). -/
lemma parseNotesGo_stop_eof (rem : List Nat) (note_id : Nat)
    (notes : List NSFNote) (h : (rem.take 16).length < 16) :
    parseNotesGo rem note_id notes = notes := by
  rw [parseNotesGo.eq_def, if_pos h]

/-- The note scan stops on a zero or over-1-MiB declared length. -/
lemma parseNotesGo_stop_badL (rem : List Nat) (note_id : Nat)
    (notes : List NSFNote) (h16 : ¬ (rem.take 16).length < 16)
    (h : le32 (rem.take 16) 4 = 0 ∨ 1048576 < le32 (rem.take 16) 4) :
    parseNotesGo rem note_id notes = notes := by
  rw [parseNotesGo.eq_def, if_neg h16, if_pos h]

/-- The note scan stops on a truncated payload. -/
lemma parseNotesGo_stop_shortP (rem : List Nat) (note_id : Nat)
    (notes : List NSFNote) (h16 : ¬ (rem.take 16).length < 16)
    (hL : ¬ (le32 (rem.take 16) 4 = 0 ∨ 1048576 < le32 (rem.take 16) 4))
    (hP : ((rem.drop 16).take (le32 (rem.take 16) 4)).length
      < le32 (rem.take 16) 4) :
    parseNotesGo rem note_id notes = notes := by
  rw [parseNotesGo.eq_def, if_neg h16, if_neg hL, if_pos hP]

/-- The note scan stops right after accepting the 101st record (the
post-append `len(self.notes) > 100` cap). -/
lemma parseNotesGo_cap (rem : List Nat) (note_id : Nat)
    (notes : List NSFNote) (h16 : ¬ (rem.take 16).length < 16)
    (hL : ¬ (le32 (rem.take 16) 4 = 0 ∨ 1048576 < le32 (rem.take 16) 4))
    (hP : ¬ ((rem.drop 16).take (le32 (rem.take 16) 4)).length
      < le32 (rem.take 16) 4)
    (hcap : notes.length = 100) :
    parseNotesGo rem note_id notes
      = notes ++ [mkNote note_id (le16 (rem.take 16) 0)
          ((rem.drop 16).take (le32 (rem.take 16) 4))] := by
  rw [parseNotesGo.eq_def, if_neg h16, if_neg hL, if_neg hP,
    if_pos (by simp [hcap])]

/-- One accepted frame below the cap: the note is appended and the scan
continues after the payload. -/
lemma parseNotesGo_step (rem : List Nat) (note_id : Nat)
    (notes : List NSFNote) (h16 : ¬ (rem.take 16).length < 16)
    (hL : ¬ (le32 (rem.take 16) 4 = 0 ∨ 1048576 < le32 (rem.take 16) 4))
    (hP : ¬ ((rem.drop 16).take (le32 (rem.take 16) 4)).length
      < le32 (rem.take 16) 4)
    (hcap : notes.length ≤ 99) :
    parseNotesGo rem note_id notes
      = parseNotesGo ((rem.drop 16).drop (le32 (rem.take 16) 4))
          (note_id + 1)
          (notes ++ [mkNote note_id (le16 (rem.take 16) 0)
            ((rem.drop 16).take (le32 (rem.take 16) 4))]) := by
  rw [parseNotesGo.eq_def, if_neg h16, if_neg hL, if_neg hP,
    if_neg (by simp; omega)]

/-- The note scan never holds more than 101 records. -/
lemma parseNotesGo_le (n : Nat) : ∀ (rem : List Nat) (note_id : Nat)
    (notes : List NSFNote), rem.length ≤ n → notes.length ≤ 100 →
    (parseNotesGo rem note_id notes).length ≤ 101 := by
  induction n with
  | zero =>
    intro rem note_id notes hn hc
    rw [parseNotesGo_stop_eof rem note_id notes (by simp; omega)]
    omega
  | succ n ih =>
    intro rem note_id notes hn hc
    by_cases h16 : (rem.take 16).length < 16
    · rw [parseNotesGo_stop_eof rem note_id notes h16]; omega
    · by_cases hL : le32 (rem.take 16) 4 = 0 ∨ 1048576 < le32 (rem.take 16) 4
      · rw [parseNotesGo_stop_badL rem note_id notes h16 hL]; omega
      · by_cases hP : ((rem.drop 16).take (le32 (rem.take 16) 4)).length
            < le32 (rem.take 16) 4
        · rw [parseNotesGo_stop_shortP rem note_id notes h16 hL hP]; omega
        · by_cases hcap : notes.length = 100
          · rw [parseNotesGo_cap rem note_id notes h16 hL hP hcap]
            simp [hcap]
          · rw [parseNotesGo_step rem note_id notes h16 hL hP (by omega)]
            have h16' : 16 ≤ rem.length := by
              simp at h16; omega
            refine ih _ _ _ (by simp; omega) (by simp; omega)

/-- Splitting the head frame off the frame stream. -/
lemma frames_take16 (k : Nat) :
    ((frame ++ frames k).take 16) = frame.take 16 := by
  rw [List.take_append_eq_append_take]
  rw [show (16 - frame.length) = 0 from rfl, List.take_zero, List.append_nil]

lemma frames_drop16 (k : Nat) :
    ((frame ++ frames k).drop 16) = 99 :: frames k := by
  rw [List.drop_append_eq_append_drop]
  rw [show (16 - frame.length) = 0 from rfl, List.drop_zero,
    show frame.drop 16 = [99] from rfl, List.singleton_append]

/-- Scanning `k` well-formed frames accepts `min (kept + k) 101` records
in total. -/
lemma parseNotesGo_frames (k : Nat) : ∀ (note_id : Nat)
    (notes : List NSFNote), notes.length ≤ 100 →
    (parseNotesGo (frames k) note_id notes).length
      = min (notes.length + k) 101 := by
  induction k with
  | zero =>
    intro note_id notes hc
    rw [show frames 0 = [] from rfl,
      parseNotesGo_stop_eof [] note_id notes (by simp)]
    omega
  | succ k ih =>
    intro note_id notes hc
    rw [show frames (k + 1) = frame ++ frames k from rfl]
    have hl32 : le32 ((frame ++ frames k).take 16) 4 = 1 := by
      rw [frames_take16]; rfl
    have h16 : ¬ ((frame ++ frames k).take 16).length < 16 := by
      rw [frames_take16]; decide
    have hL : ¬ (le32 ((frame ++ frames k).take 16) 4 = 0
        ∨ 1048576 < le32 ((frame ++ frames k).take 16) 4) := by
      rw [hl32]; decide
    have hpay : ((frame ++ frames k).drop 16).take
        (le32 ((frame ++ frames k).take 16) 4) = [99] := by
      rw [hl32, frames_drop16]; rfl
    have hP : ¬ (((frame ++ frames k).drop 16).take
        (le32 ((frame ++ frames k).take 16) 4)).length
        < le32 ((frame ++ frames k).take 16) 4 := by
      rw [hpay, hl32]; decide
    have hrem : ((frame ++ frames k).drop 16).drop
        (le32 ((frame ++ frames k).take 16) 4) = frames k := by
      rw [hl32, frames_drop16, List.drop_one, List.tail_cons]
    by_cases hcap : notes.length = 100
    · rw [parseNotesGo_cap _ note_id notes h16 hL hP hcap]
      simp [hcap]
      omega
    · rw [parseNotesGo_step _ note_id notes h16 hL hP (by omega), hrem,
        ih (note_id + 1) _ (by simp; omega)]
      simp
      omega

/-- C1 (amended): the note scan retains at most 101 RawNotes — the cap
check `len(self.notes) > 100` runs AFTER the append, so the 101st record
is still accepted; a stream of at least 101 well-formed frames yields
exactly 101 retained records, and scanning stops unconditionally once
101 RawNotes have been accepted even if valid frames remain. -/
theorem claimC1_amended :
    (∀ rem : List Nat, (parse_notes rem).length ≤ 101) ∧
    (∀ k : Nat, 101 ≤ k → (parse_notes (frames k)).length = 101) := by
  constructor
  · intro rem
    exact parseNotesGo_le rem.length rem 1 [] (le_refl _) (by simp)
  · intro k hk
    rw [parse_notes, parseNotesGo_frames k 1 [] (by simp)]
    simp
    omega

/-- Witness for C1: a stream of 101 well-formed frames yields exactly
101 retained records, and any stream retains at most 101. -/
theorem claimC1_witness :
    (parse_notes (frames 101)).length = 101 ∧
    (parse_notes (frames 102)).length ≤ 101 :=
  ⟨claimC1_amended.2 101 (by decide), claimC1_amended.1 (frames 102)⟩

/-- Counterexample for C1 as stated: a stream of 150 well-formed record
frames yields 101 retained records, not the claimed exactly-100 (and not
at most 100): the `len(self.notes) > 100` check runs only after the
append, so the 101st frame is accepted before scanning stops. -/
theorem claimC1_cex : (parse_notes (frames 150)).length = 101 := by
  rw [parse_notes, parseNotesGo_frames 150 1 [] (by simp)]
  simp

/-- C6 (amended): the classifier tests the lowercased PYTHON TEXTUAL
REPRESENTATION of the item mapping (`str(note.items).lower()`, i.e. the
dict repr with `item_<type>` keys and byte-literal values), not the
LMBCS-decoded dump of the item bytes: every RawNote with
`noteClass == 1024` whose lowercased mapping repr contains `"form"` is
classified Form (Form is tested before View, so it wins even when
`"view"` also appears); and every RawNote with `noteClass == 512` is
classified Document regardless of item content. -/
theorem claimC6_amended :
    (∀ n : NSFNote, n.note_class = 1024 →
      strContains (asciiLower (pyDictRepr n.items)) "form" = true →
      classifyNote n = .form) ∧
    (∀ n : NSFNote, n.note_class = 512 → classifyNote n = .document) := by
  constructor
  · intro n h1 h2
    simp [classifyNote, is_form_note, h1, h2]
  · intro n h
    have h1 : is_form_note n = false := by
      simp [is_form_note, h]
    have h2 : is_view_note n = false := by
      simp [is_view_note, h]
    simp [classifyNote, h1, h2, is_document_note, h]

/-- Witness for C6: a class-1024 note whose single item holds the bytes
`b'Form'` (its dict repr, lowercased, contains `"form"`) classifies as
Form; a class-512 note with no items classifies as Document. -/
theorem claimC6_witness :
    classifyNote ⟨1, 1024, [1, 0, 4, 0, 70, 111, 114, 109],
      [("item_1", [70, 111, 114, 109])]⟩ = .form ∧
    classifyNote ⟨2, 512, [], []⟩ = .document :=
  ⟨claimC6_amended.1 _ rfl (by decide), claimC6_amended.2 _ rfl⟩

/-- Counterexample for C6 as stated: the payload `[1,0,5,0,102,111,128,
114,109]` yields one item with bytes `b'fo\x80rm'`.  The LMBCS-decoded
dump of all items is exactly `"form"` (the invalid byte 0x80 is dropped
by the UTF-8 fallback), so the claim classifies this class-1024 note as
Form; but the code tests `str(note.items).lower()`, which renders the
high byte as the escape text `\x80` — `"{'item_1': b'fo\x80rm'}"`
contains no `"form"` — so the note is NOT classified Form. -/
theorem claimC6_cex :
    (mkNote 1 1024 [1, 0, 5, 0, 102, 111, 128, 114, 109]).note_class = 1024 ∧
    strContains (asciiLower (decodedDump
      (mkNote 1 1024 [1, 0, 5, 0, 102, 111, 128, 114, 109]).items)) "form"
      = true ∧
    classifyNote (mkNote 1 1024 [1, 0, 5, 0, 102, 111, 128, 114, 109])
      ≠ .form := by
  have hpi : parse_items [1, 0, 5, 0, 102, 111, 128, 114, 109]
      = [("item_1", [102, 111, 128, 114, 109])] := by
    simp [parse_items, parseItemsGo, le16, itemKey, itemVal, dictSet]
    rfl
  have hn : mkNote 1 1024 [1, 0, 5, 0, 102, 111, 128, 114, 109]
      = ⟨1, 1024, [1, 0, 5, 0, 102, 111, 128, 114, 109],
          [("item_1", [102, 111, 128, 114, 109])]⟩ := by
    rw [mkNote, hpi]
  rw [hn]
  have hd : decodedDump [("item_1", [102, 111, 128, 114, 109])] = "form" := by
    have hu : utf8DecodeIgnore [128, 114, 109] = ['r', 'm'] := by
      simp [utf8DecodeIgnore]
    simp [decodedDump, lmbcsDecode, lmbcsDecodeList, hu, String.join]
  refine ⟨rfl, ?_, by decide⟩
  rw [show (NSFNote.mk 1 1024 [1, 0, 5, 0, 102, 111, 128, 114, 109]
      [("item_1", [102, 111, 128, 114, 109])]).items
    = [("item_1", [102, 111, 128, 114, 109])] from rfl, hd]
  decide

/-- C3 (amended): for every byte stream from which zero record frames
are accepted, the built ApplicationModel contains exactly one default
FormModel and exactly one default ViewModel marked as the default view —
but the default FormModel's field sequence is the FOUR canonical fields
Title/required-text, Content/rich-text, Author/text, Created/datetime
(`_create_default_form` adds an Author field; only the per-note form
extraction uses a 3-field template), not 3. -/
theorem claimC3_amended :
    (∀ (filename title : String) (now : Nat),
      (build_application_model filename title [] now).forms
          = [create_default_form] ∧
      (build_application_model filename title [] now).views
          = [create_default_view]) ∧
    create_default_form.fields.map (fun f => (f.name, f.type, f.required))
      = [("Title", FieldType.text, true),
         ("Content", FieldType.rich_text, false),
         ("Author", FieldType.text, false),
         ("Created", FieldType.datetime, false)] ∧
    create_default_view.default_view = true ∧
    (∀ (bytes : List Nat) (fn : String) (t : Nat) (h : NSFFileHeader),
      parseFileHeader (bytes.take 22) = .ok h →
      parse_notes ((bytes.drop 22).drop h.info_buffer_size) = [] →
      parse_nsf_stream bytes fn t
        = .ok (build_application_model fn
            (parse_info_buffer ((bytes.drop 22).take h.info_buffer_size))
            [] t)) := by
  refine ⟨fun filename title now => ?_, by decide, by decide,
    fun bytes fn t h hfh hpn => ?_⟩
  · constructor <;> simp [build_application_model, buildLists]
  · rw [List.drop_drop] at hpn
    simp [parse_nsf_stream, hfh, hpn]

/-- Witness for C3: the minimal valid stream — a 22-byte header with
signature `1a 00`, version 43, info-buffer size 0, class 2 and nothing
after it — accepts zero frames and produces the model holding exactly
the default form and the default view. -/
theorem claimC3_witness :
    parse_nsf_stream ([26, 0, 43, 0, 0, 0, 2, 0] ++ List.replicate 14 0)
        "db.nsf" 0
      = .ok (build_application_model "db.nsf" "" [] 0) ∧
    (build_application_model "db.nsf" "" [] 0).forms
      = [create_default_form] ∧
    (build_application_model "db.nsf" "" [] 0).views
      = [create_default_view] := by
  have hdrop : (([26, 0, 43, 0, 0, 0, 2, 0] ++ List.replicate 14 0).drop 22)
      = ([] : List Nat) := by simp
  have hpn : parse_notes ((([26, 0, 43, 0, 0, 0, 2, 0]
      ++ List.replicate 14 0).drop 22).drop (0 : Nat)) = [] := by
    rw [hdrop, List.drop_nil, parse_notes,
      parseNotesGo_stop_eof [] 1 [] (by simp)]
  have hfh : parseFileHeader (([26, 0, 43, 0, 0, 0, 2, 0]
      ++ List.replicate 14 0).take 22) = .ok ⟨43, 0, 2⟩ := rfl
  have h := claimC3_amended.2.2.2 ([26, 0, 43, 0, 0, 0, 2, 0]
      ++ List.replicate 14 0) "db.nsf" 0 ⟨43, 0, 2⟩ hfh hpn
  refine ⟨?_, (claimC3_amended.1 "db.nsf" "" 0).1,
    (claimC3_amended.1 "db.nsf" "" 0).2⟩
  rw [h, hdrop]
  rfl

/-- Counterexample for C3 as stated: on the minimal zero-frame stream
the built model's single default form carries 4 fields, not the claimed
3 canonical fields. -/
theorem claimC3_cex :
    (parse_nsf_stream ([26, 0, 43, 0, 0, 0, 2, 0] ++ List.replicate 14 0)
        "db.nsf" 0).map (fun app => app.forms.map (fun f => f.fields.length))
      = .ok [4] ∧ (4 : Nat) ≠ 3 := by
  have hfh : parseFileHeader (([26, 0, 43, 0, 0, 0, 2, 0]
      ++ List.replicate 14 0).take 22) = .ok ⟨43, 0, 2⟩ := rfl
  refine ⟨?_, by decide⟩
  rw [parse_nsf_stream, hfh]
  simp [parse_notes, parseNotesGo_stop_eof, build_application_model,
    buildLists, create_default_form, Except.map, parse_info_buffer]

/-- The note loop produces, up to date stripping, the same three lists
for any two clock readings: the classification depends only on the
notes, and the clock flows only into the date slots. -/
lemma buildLists_strip (notes : List NSFNote) (t₁ t₂ : Nat) :
    (buildLists t₁ notes).1.map stripForm
        = (buildLists t₂ notes).1.map stripForm
    ∧ (buildLists t₁ notes).2.1.map stripView
        = (buildLists t₂ notes).2.1.map stripView
    ∧ (buildLists t₁ notes).2.2.map stripDoc
        = (buildLists t₂ notes).2.2.map stripDoc := by
  induction notes with
  | nil => simp [buildLists]
  | cons n ns ih =>
    by_cases hf : is_form_note n
    · simpa [buildLists, hf, stripForm, extract_form] using ih
    · by_cases hv : is_view_note n
      · simpa [buildLists, hf, hv, stripView, extract_view] using ih
      · by_cases hd : is_document_note n
        · have hdoc : stripDoc (extract_document n t₁)
              = stripDoc (extract_document n t₂) := by
            simp +decide [stripDoc, extract_document]
          simpa [buildLists, hf, hv, hd, hdoc] using ih
        · simpa [buildLists, hf, hv, hd] using ih

/-- Build results for two clock readings agree after date stripping. -/
lemma stripApp_build (filename title : String) (notes : List NSFNote)
    (t₁ t₂ : Nat) :
    stripApp (build_application_model filename title notes t₁)
      = stripApp (build_application_model filename title notes t₂) := by
  have h := buildLists_strip notes t₁ t₂
  simp only [stripApp, build_application_model]
  rw [ApplicationModel.mk.injEq]
  refine ⟨rfl, rfl, rfl, rfl, rfl, ?_, ?_, h.2.2⟩
  · by_cases h1 : (buildLists t₁ notes).1 = []
    · have h2 : (buildLists t₂ notes).1 = [] := by
        have hm := h.1
        rw [h1, List.map_nil] at hm
        exact List.map_eq_nil_iff.mp hm.symm
      rw [if_pos h1, if_pos h2]
    · have h2 : (buildLists t₂ notes).1 ≠ [] := by
        intro hc
        apply h1
        have hm := h.1
        rw [hc, List.map_nil] at hm
        exact List.map_eq_nil_iff.mp hm
      rw [if_neg h1, if_neg h2]
      exact h.1
  · by_cases h1 : (buildLists t₁ notes).2.1 = []
    · have h2 : (buildLists t₂ notes).2.1 = [] := by
        have hm := h.2.1
        rw [h1, List.map_nil] at hm
        exact List.map_eq_nil_iff.mp hm.symm
      rw [if_pos h1, if_pos h2]
    · have h2 : (buildLists t₂ notes).2.1 ≠ [] := by
        intro hc
        apply h1
        have hm := h.2.1
        rw [hc, List.map_nil] at hm
        exact List.map_eq_nil_iff.mp hm
      rw [if_neg h1, if_neg h2]
      exact h.2.1

/-- C5 (amended): the pipeline is deterministic given identical input
bytes AND an identical wall-clock reading; the clock
(`datetime.now()`, the explicit `now` argument) flows only into the
date-valued slots (the model's created/modified dates, each extracted
form's and view's created date, and each document's created date and
`"created_date"` field value), so after stripping those slots the
result is a function of the input bytes and filename alone. -/
theorem claimC5_amended :
    ∀ (bytes : List Nat) (filename : String) (t₁ t₂ : Nat),
    (parse_nsf_stream bytes filename t₁).map stripApp
      = (parse_nsf_stream bytes filename t₂).map stripApp := by
  intro bytes filename t₁ t₂
  cases hh : parseFileHeader (bytes.take 22) with
  | error e => simp [parse_nsf_stream, hh]
  | ok h =>
    simp [parse_nsf_stream, hh, Except.map]
    exact stripApp_build filename _ _ t₁ t₂

/-- Counterexample for C5 as stated: the claim says every field of the
model, dates included, is a function of the input bytes alone; but the
code stamps `datetime.now()` into the model, so parsing the same minimal
valid stream at clock readings 0 and 1 yields different
ApplicationModels (their `created_date` fields differ). -/
theorem claimC5_cex :
    parse_nsf_stream ([26, 0, 43, 0, 0, 0, 2, 0] ++ List.replicate 14 0)
        "db.nsf" 0
      ≠ parse_nsf_stream ([26, 0, 43, 0, 0, 0, 2, 0] ++ List.replicate 14 0)
        "db.nsf" 1 := by
  have hfh : parseFileHeader (([26, 0, 43, 0, 0, 0, 2, 0]
      ++ List.replicate 14 0).take 22) = .ok ⟨43, 0, 2⟩ := rfl
  have he : ∀ t : Nat, parse_nsf_stream ([26, 0, 43, 0, 0, 0, 2, 0]
      ++ List.replicate 14 0) "db.nsf" t
      = .ok (build_application_model "db.nsf"
          (parse_info_buffer []) (parse_notes []) t) := by
    intro t
    rw [parse_nsf_stream, hfh]
    simp
  intro hc
  rw [he 0, he 1] at hc
  injection hc with hc'
  have hd := congrArg ApplicationModel.created_date hc'
  simp [build_application_model] at hd

end NSF
